import Mathlib

/-!
Shallow embedding of the aesthetic-nav FastAPI backend (src/main.py).

The store keeps the `links` table as a list (in insertion/rowid order),
together with the two settings values the link catalog consults
(`hidden_categories`, `category_order`) and the AUTOINCREMENT counter.
SQL `ORDER BY` is modelled with a stable sort (`List.insertionSort`),
SQL `MAX`/`COALESCE` with an explicit fold, and the JWT layer of
python-jose symbolically (a token carries its claims and the key it was
signed with; decoding succeeds exactly when the keys match and the `exp`
claim has not passed).
-/

namespace AestheticNav

/-- A row of the `links` table (see `LinkResponse` and the schema in
`init_db`).  `sort_index` is an SQLite INTEGER: the reorder endpoint can
store arbitrary integers, so it is modelled as `Int`. -/
structure Link where
  id : Nat
  title : String
  url : String
  icon : Option String
  icon_url : Option String
  description : Option String
  category : String
  is_favorite : Bool
  sort_index : Int
  usage_count : Nat
  created_at : String
deriving DecidableEq, Repr

/-- The persistent state the link/category endpoints read and write:
the `links` table plus the two settings keys they consult. -/
structure Store where
  links : List Link
  hidden_categories : List String
  category_order : List String
  nextId : Nat
deriving DecidableEq, Repr

/-- Payload of `POST /api/links` (pydantic model `LinkCreate`). -/
structure LinkCreate where
  title : String
  url : String
  icon : Option String := none
  icon_url : Option String := none
  description : Option String := none
  category : String := "Uncategorized"
  is_favorite : Bool := false
deriving DecidableEq, Repr

/-- Payload of `PUT /api/links/(id)` (pydantic model `LinkUpdate`).
Note there is no `sort_index` field. -/
structure LinkUpdate where
  title : Option String := none
  url : Option String := none
  icon : Option String := none
  icon_url : Option String := none
  description : Option String := none
  category : Option String := none
  is_favorite : Option Bool := none
deriving DecidableEq, Repr

/-- One entry of the `PUT /api/links/reorder` payload
(pydantic model `LinkReorderItem`). -/
structure LinkReorderItem where
  id : Nat
  category : String
  sort_index : Int
deriving DecidableEq, Repr

/-- The HTTP error outcomes the catalog endpoints can raise. -/
inductive ApiError where
  | notFound
  | invalidArgument
deriving DecidableEq, Repr

/-! ### Token service (symbolic model of python-jose HS256 JWTs) -/

/-- `ACCESS_TOKEN_EXPIRE_HOURS = 24` from the configuration block. -/
def ACCESS_TOKEN_EXPIRE_HOURS : Nat := 24

/-- The claims carried by a token: the `sub` identity claim and the
absolute expiry `exp` (seconds). -/
structure JwtClaims where
  sub : Option String
  exp : Nat
deriving DecidableEq, Repr

/-- A signed token.  The HMAC signature is modelled symbolically by
recording the signing key; `jwt_decode` checks it by equality
(unforgeability assumption). -/
structure Jwt where
  claims : JwtClaims
  signedWith : String
deriving DecidableEq, Repr

/-- `jose.jwt.encode`: sign the claims with `key`. -/
def jwt_encode (claims : JwtClaims) (key : String) : Jwt :=
  { claims := claims, signedWith := key }

/-- `jose.jwt.decode`: succeeds iff the signature was made with `key`
and the `exp` claim has not passed (jose raises `ExpiredSignatureError`,
a `JWTError`, exactly when `exp < now` with zero leeway). -/
def jwt_decode (tok : Jwt) (key : String) (now : Nat) : Option JwtClaims :=
  if tok.signedWith = key ∧ now ≤ tok.claims.exp then some tok.claims else none

/-- `create_access_token`: copies the payload (here just the `sub`
claim) and adds `exp = now + 24 hours`, then signs with the secret. -/
def create_access_token (sub : Option String) (key : String) (now : Nat) : Jwt :=
  jwt_encode { sub := sub, exp := now + ACCESS_TOKEN_EXPIRE_HOURS * 3600 } key

/-- `verify_token`: decode, then require the `sub` claim to be the
fixed admin username; returns the username on success.  Decode failure
and a wrong identity both raise HTTP 403. -/
def verify_token (tok : Jwt) (key : String) (now : Nat) : Except String String :=
  match jwt_decode tok key now with
  | none => .error "Invalid or expired token"
  | some claims =>
      if claims.sub = some "admin" then .ok "admin" else .error "Invalid token"

/-- `get_current_user_optional`: no header, a non-admin `sub`, or any
decode failure all resolve to no identity; a valid admin token resolves
to the admin identity. -/
def get_current_user_optional (authHeader : Option Jwt) (key : String) (now : Nat) :
    Option String :=
  match authHeader with
  | none => none
  | some tok =>
      match jwt_decode tok key now with
      | none => none
      | some claims => if claims.sub = some "admin" then some "admin" else none

/-! ### Link catalog operations -/

/-- `COALESCE(MAX(xs), 0)`: the maximum of a list of integers, `0` when
the list is empty (a negative maximum is kept, only NULL becomes 0). -/
def maxD0 : List Int → Int
  | [] => 0
  | x :: xs => xs.foldl max x

/-- The `sort_index` values of the links currently in category `cat`
(the rows `SELECT sort_index FROM links WHERE category = ?` returns). -/
def sortIndicesIn (cat : String) (links : List Link) : List Int :=
  (links.filter fun l => l.category = cat).map fun l => l.sort_index

/-- Lexicographic comparison of character lists, written structurally so
that the kernel can evaluate it on literals. -/
def charListLtB : List Char → List Char → Bool
  | _, [] => false
  | [], _ :: _ => true
  | a :: as, b :: bs => decide (a < b) || (decide (a = b) && charListLtB as bs)

theorem charListLtB_iff_lex : ∀ as bs : List Char,
    charListLtB as bs = true ↔ List.Lex (· < ·) as bs
  | as, [] => by
    constructor
    · intro h; cases as <;> simp [charListLtB] at h
    · intro h; nomatch h
  | [], b :: bs => by
    simp only [charListLtB, true_iff]
    exact List.Lex.nil
  | a :: as, b :: bs => by
    simp only [charListLtB, Bool.or_eq_true, Bool.and_eq_true, decide_eq_true_eq]
    constructor
    · rintro (hab | ⟨rfl, h⟩)
      · exact List.Lex.rel hab
      · exact List.Lex.cons ((charListLtB_iff_lex as bs).mp h)
    · intro h
      cases h with
      | cons h => exact Or.inr ⟨rfl, (charListLtB_iff_lex as bs).mpr h⟩
      | rel h => exact Or.inl h

theorem strLtB_iff (a b : String) : charListLtB a.data b.data = true ↔ a < b :=
  (charListLtB_iff_lex a.data b.data).trans String.lt_iff_toList_lt.symm

/-- A kernel-computable decision procedure for the lexicographic order
on `String` (the one SQLite `ORDER BY ... ASC` and Python `sorted` use
on the strings this program stores). -/
def decideStrLt (a b : String) : Decidable (a < b) :=
  decidable_of_iff (charListLtB a.data b.data = true) (strLtB_iff a b)

def decideStrLe (a b : String) : Decidable (a ≤ b) :=
  decidable_of_iff (charListLtB b.data a.data = false)
    (by rw [← Bool.not_eq_true, strLtB_iff b a]; exact not_lt)

/-- The `ORDER BY category ASC, sort_index ASC, created_at DESC` key of
`GET /api/links`, as a relation (SQLite compares TEXT bytewise, modelled
by the lexicographic order on `String`). -/
def linkLeP (a b : Link) : Prop :=
  a.category < b.category ∨
    (a.category = b.category ∧
      (a.sort_index < b.sort_index ∨
        (a.sort_index = b.sort_index ∧ b.created_at ≤ a.created_at)))

instance : DecidableRel linkLeP := fun a b =>
  @instDecidableOr _ _ (decideStrLt a.category b.category)
    (@instDecidableAnd _ _ (String.decEq a.category b.category)
      (@instDecidableOr _ _ (Int.decLt a.sort_index b.sort_index)
        (@instDecidableAnd _ _ (Int.decEq a.sort_index b.sort_index)
          (decideStrLe b.created_at a.created_at))))

/-- The WHERE clauses of `GET /api/links` built from the two query
parameters.  Python `if category:` is truthiness, so an empty string
adds no clause; `favorite` is compared against `is not None`. -/
def matchesFilters (catFilter : Option String) (favFilter : Option Bool) (l : Link) : Bool :=
  (match catFilter with
   | some c => if c = "" then true else decide (l.category = c)
   | none => true) &&
  (match favFilter with
   | some f => l.is_favorite = f
   | none => true)

/-- The hidden-category clause of `GET /api/links`: added only when the
caller resolved to no identity and the hidden list is nonempty. -/
def visibleTo (current_user : Option String) (hidden : List String) (l : Link) : Bool :=
  if current_user.isNone && !hidden.isEmpty then !(hidden.contains l.category) else true

/-- `GET /api/links` (`get_links`): filter by visibility and the query
parameters, then sort by `category ASC, sort_index ASC, created_at DESC`. -/
def get_links (catFilter : Option String) (favFilter : Option Bool)
    (current_user : Option String) (s : Store) : List Link :=
  List.insertionSort linkLeP
    (s.links.filter fun l =>
      visibleTo current_user s.hidden_categories l && matchesFilters catFilter favFilter l)

/-- Alphabetical order on category names, as used by Python `sorted`. -/
def stringLeP (a b : String) : Prop := a ≤ b

instance : DecidableRel stringLeP := fun a b => decideStrLe a b

/-- The `categories` local of `get_categories`:
`SELECT DISTINCT category FROM links`. -/
def distinctCategories (s : Store) : List String :=
  (s.links.map fun l => l.category).dedup

/-- The `ordered` local of `get_categories`: the names of the stored
`category_order` that are present among links, in preference order. -/
def orderedCategories (s : Store) : List String :=
  s.category_order.filter fun c => (distinctCategories s).contains c

/-- The `remaining` local of `get_categories`: present categories not in
`ordered`, sorted alphabetically. -/
def remainingCategories (s : Store) : List String :=
  List.insertionSort stringLeP
    ((distinctCategories s).filter fun c => !((orderedCategories s).contains c))

/-- `GET /api/categories` (`get_categories`): the distinct categories of
the links table; those named in the stored `category_order` first, in
that sequence, then the rest alphabetically.  Takes no caller identity. -/
def get_categories (s : Store) : List String :=
  orderedCategories s ++ remainingCategories s

/-- `POST /api/links` (`create_link`): next sort_index is
`COALESCE(MAX(sort_index),0) + 1` within the payload's category; the row
is appended with a fresh id, `usage_count = 0` and `created_at = now`. -/
def create_link (p : LinkCreate) (now : String) (s : Store) : Link × Store :=
  let next_sort := maxD0 (sortIndicesIn p.category s.links) + 1
  let newLink : Link :=
    { id := s.nextId, title := p.title, url := p.url, icon := p.icon,
      icon_url := p.icon_url, description := p.description, category := p.category,
      is_favorite := p.is_favorite, sort_index := next_sort, usage_count := 0,
      created_at := now }
  (newLink, { s with links := s.links ++ [newLink], nextId := s.nextId + 1 })

/-- `N` successive `create_link` calls with the same payload. -/
def createN (p : LinkCreate) (now : String) : Nat → Store → Store
  | 0, s => s
  | n + 1, s => createN p now n (create_link p now s).2

/-- One `UPDATE links SET category = ?, sort_index = ? WHERE id = ?`
statement of the reorder loop. -/
def applyReorderItem (links : List Link) (item : LinkReorderItem) : List Link :=
  links.map fun l =>
    if l.id = item.id then
      { l with category := item.category, sort_index := item.sort_index }
    else l

/-- `PUT /api/links/reorder` (`reorder_links`): 400 on an empty batch,
otherwise each item overwrites its link's category and sort_index
directly, in order, with no validation. -/
def reorder_links (items : List LinkReorderItem) (s : Store) : Except ApiError Store :=
  if items.isEmpty then .error .invalidArgument
  else .ok { s with links := items.foldl applyReorderItem s.links }

/-- Does the dynamic UPDATE of `update_link` have at least one SET
clause, i.e. is at least one recognized payload field present? -/
def hasUpdates (u : LinkUpdate) : Bool :=
  u.title.isSome || u.url.isSome || u.icon.isSome || u.icon_url.isSome ||
  u.description.isSome || u.category.isSome || u.is_favorite.isSome

/-- Apply the SET clauses of `update_link` to one row.  `newSort` is the
recomputed sort_index when the payload moves the row to a different
category, `none` otherwise. -/
def applyUpdate (u : LinkUpdate) (newSort : Option Int) (l : Link) : Link :=
  { l with
    title := u.title.getD l.title,
    url := u.url.getD l.url,
    icon := match u.icon with | some v => some v | none => l.icon,
    icon_url := match u.icon_url with | some v => some v | none => l.icon_url,
    description := match u.description with | some v => some v | none => l.description,
    category := u.category.getD l.category,
    sort_index := newSort.getD l.sort_index,
    is_favorite := u.is_favorite.getD l.is_favorite }

/-- `PUT /api/links/(id)` (`update_link`): 404 when the id has no row;
400 when no recognized field is present; otherwise the present fields
are applied, and when the payload's category differs from the current
one the sort_index is recomputed as append-to-end of the destination
category (computed over the pre-update table).  Returns the updated row
and the new store. -/
def update_link (link_id : Nat) (u : LinkUpdate) (s : Store) :
    Except ApiError (Link × Store) :=
  match s.links.find? (fun l => l.id = link_id) with
  | none => .error .notFound
  | some existing =>
      if hasUpdates u then
        let newSort : Option Int :=
          match u.category with
          | some c =>
              if c ≠ existing.category then
                some (maxD0 (sortIndicesIn c s.links) + 1)
              else none
          | none => none
        let links' := s.links.map fun l =>
          if l.id = link_id then applyUpdate u newSort l else l
        .ok (applyUpdate u newSort existing, { s with links := links' })
      else .error .invalidArgument

/-- The store after `update_link` (unchanged when the endpoint raised,
since both failures are raised before any UPDATE executes). -/
def update_link_store (link_id : Nat) (u : LinkUpdate) (s : Store) : Store :=
  match update_link link_id u s with
  | .ok (_, s2) => s2
  | .error _ => s

/-- `POST /api/links/(id)/click` (`track_click`): increment the row's
usage_count; a missing id updates no row; always returns ok. -/
def track_click (link_id : Nat) (s : Store) : Store :=
  { s with links := s.links.map fun l =>
      if l.id = link_id then { l with usage_count := l.usage_count + 1 } else l }

/-- `N` successive `track_click` calls for the same id. -/
def track_clickN (link_id : Nat) : Nat → Store → Store
  | 0, s => s
  | n + 1, s => track_clickN link_id n (track_click link_id s)

/-! ### Order-theoretic facts about the two sort keys -/

instance : IsTrans Link linkLeP := by
  constructor
  intro a b c hab hbc
  unfold linkLeP at *
  rcases hab with h1 | ⟨e1, h1⟩
  · rcases hbc with h2 | ⟨e2, h2⟩
    · exact Or.inl (lt_trans h1 h2)
    · exact Or.inl (e2 ▸ h1)
  · rcases hbc with h2 | ⟨e2, h2⟩
    · exact Or.inl (e1 ▸ h2)
    · refine Or.inr ⟨e1.trans e2, ?_⟩
      rcases h1 with h1 | ⟨f1, h1⟩
      · rcases h2 with h2 | ⟨f2, h2⟩
        · exact Or.inl (lt_trans h1 h2)
        · exact Or.inl (f2 ▸ h1)
      · rcases h2 with h2 | ⟨f2, h2⟩
        · exact Or.inl (f1 ▸ h2)
        · exact Or.inr ⟨f1.trans f2, le_trans h2 h1⟩

instance : IsTotal Link linkLeP := by
  constructor
  intro a b
  unfold linkLeP
  rcases lt_trichotomy a.category b.category with h | h | h
  · exact Or.inl (Or.inl h)
  · rcases lt_trichotomy a.sort_index b.sort_index with g | g | g
    · exact Or.inl (Or.inr ⟨h, Or.inl g⟩)
    · rcases le_total b.created_at a.created_at with f | f
      · exact Or.inl (Or.inr ⟨h, Or.inr ⟨g, f⟩⟩)
      · exact Or.inr (Or.inr ⟨h.symm, Or.inr ⟨g.symm, f⟩⟩)
    · exact Or.inr (Or.inr ⟨h.symm, Or.inl g⟩)
  · exact Or.inr (Or.inl h)

instance : IsTrans String stringLeP := ⟨fun _ _ _ => le_trans⟩

instance : IsTotal String stringLeP := ⟨fun a b => le_total a b⟩

/-! ### Spec-side definitions

These two definitions follow the SPEC's words, not the code; they exist
to be compared with `get_links` and `get_categories`. -/

/-- The "resolved display order" the spec describes for list results:
categories named in the stored `category_order` preference first, in
that sequence, remaining categories alphabetical. -/
def claimedDisplayOrder (s : Store) : List String :=
  let cats := (s.links.map fun l => l.category).dedup
  (s.category_order.filter fun c => cats.contains c) ++
    List.insertionSort stringLeP (cats.filter fun c => !(s.category_order.contains c))

/-- Position of a category in the resolved display order. -/
def claimedCatRank (s : Store) (c : String) : Nat :=
  (claimedDisplayOrder s).indexOf c

/-- The ordering the spec claims for `GET /api/links` results: category
ascending by rank in the resolved display order, then `sort_index`
ascending, then `created_at` descending. -/
def claimedLinkLeP (s : Store) (a b : Link) : Prop :=
  (a.category = b.category ∧
    (a.sort_index < b.sort_index ∨
      (a.sort_index = b.sort_index ∧ b.created_at ≤ a.created_at))) ∨
  (a.category ≠ b.category ∧
    claimedCatRank s a.category < claimedCatRank s b.category)

instance (s : Store) : DecidableRel (claimedLinkLeP s) := fun a b =>
  @instDecidableOr _ _
    (@instDecidableAnd _ _ (String.decEq a.category b.category)
      (@instDecidableOr _ _ (Int.decLt a.sort_index b.sort_index)
        (@instDecidableAnd _ _ (Int.decEq a.sort_index b.sort_index)
          (decideStrLe b.created_at a.created_at))))
    (@instDecidableAnd _ _ (@instDecidableNot _ (String.decEq a.category b.category))
      (Nat.decLt (claimedCatRank s a.category) (claimedCatRank s b.category)))

/-- The result the spec describes for `listCategories`: the distinct
categories present among links, those named in the order preference
first in that relative order, then the rest alphabetically. -/
def claimed_listCategories (links : List Link) (order : List String) : List String :=
  let cats := (links.map fun l => l.category).dedup
  (order.dedup.filter fun c => cats.contains c) ++
    List.insertionSort stringLeP (cats.filter fun c => !(order.contains c))

/-- The sort_index values `1, 2, ..., n`. -/
def intRange1 (n : Nat) : List Int :=
  (List.range n).map fun i => Int.ofNat i + 1

/-! ### Concrete inputs used by witnesses and counterexamples -/

def linkA1 : Link :=
  { id := 1, title := "a", url := "u", icon := none, icon_url := none,
    description := none, category := "A", is_favorite := false, sort_index := 1,
    usage_count := 0, created_at := "t1" }

def linkB1 : Link :=
  { linkA1 with
    id := 2
    category := "B" }

/-- Two categories, and a category_order preference that reverses their
alphabetical order. -/
def storeC1 : Store :=
  { links := [linkA1, linkB1], hidden_categories := [],
    category_order := ["B", "A"], nextId := 3 }

def linkH : Link :=
  { linkA1 with
    id := 3
    category := "H" }

def linkP : Link :=
  { linkA1 with
    id := 4
    category := "P" }

/-- A store whose category "H" is hidden. -/
def storeHidden : Store :=
  { links := [linkH, linkP], hidden_categories := ["H"], category_order := [],
    nextId := 5 }

def storeEmpty : Store :=
  { links := [], hidden_categories := [], category_order := [], nextId := 1 }

def payloadC : LinkCreate :=
  { title := "n", url := "u", category := "C" }

def linkMoveSrc : Link :=
  { linkA1 with
    id := 1
    category := "A"
    sort_index := 5 }

def linkMoveDst : Link :=
  { linkA1 with
    id := 2
    category := "B"
    sort_index := 3 }

def storeC5 : Store :=
  { links := [linkMoveSrc, linkMoveDst], hidden_categories := [],
    category_order := [], nextId := 3 }

def updMoveToB : LinkUpdate :=
  { category := some "B" }

def link5 : Link :=
  { linkA1 with
    id := 5
    category := "X"
    sort_index := 9
    created_at := "t1" }

def link7 : Link :=
  { linkA1 with
    id := 7
    category := "X"
    sort_index := 1
    created_at := "t2" }

def storeC6 : Store :=
  { links := [link5, link7], hidden_categories := [], category_order := [],
    nextId := 8 }

def itemsC6 : List LinkReorderItem :=
  [{ id := 5, category := "A", sort_index := 1 },
   { id := 7, category := "A", sort_index := 2 }]

def linkA8 : Link := linkA1

def linkB8 : Link :=
  { linkA1 with
    id := 2
    category := "B" }

def linkC8 : Link :=
  { linkA1 with
    id := 3
    category := "C" }

/-- Links in categories A, B, C with order preference ["B", "A"]. -/
def storeC8 : Store :=
  { links := [linkA8, linkB8, linkC8], hidden_categories := [],
    category_order := ["B", "A"], nextId := 4 }

/-- A store whose category_order preference names "B" twice. -/
def storeDupOrder : Store :=
  { links := [linkB8], hidden_categories := [], category_order := ["B", "B"],
    nextId := 3 }

/-- A token asserting a non-admin identity, signed with the right key. -/
def forgedToken : Jwt :=
  jwt_encode { sub := some "evil", exp := 999999999 } "k"

/-! ### Shared lemmas -/

theorem mem_get_links_iff {cf : Option String} {ff : Option Bool} {u : Option String}
    {s : Store} {l : Link} :
    l ∈ get_links cf ff u s ↔
      l ∈ s.links ∧ visibleTo u s.hidden_categories l = true ∧
        matchesFilters cf ff l = true := by
  unfold get_links
  rw [List.mem_insertionSort, List.mem_filter, Bool.and_eq_true]

theorem le_foldl_max : ∀ (ys : List Int) (a : Int), a ≤ ys.foldl max a
  | [], _ => le_refl _
  | z :: ys, a => le_trans (le_max_left a z) (le_foldl_max ys (max a z))

theorem mem_le_foldl_max : ∀ (ys : List Int) (a x : Int), x ∈ ys → x ≤ ys.foldl max a
  | z :: ys, a, x, h => by
    rcases List.mem_cons.mp h with rfl | h2
    · exact le_trans (le_max_right a x) (le_foldl_max ys (max a x))
    · exact mem_le_foldl_max ys (max a z) x h2

theorem le_maxD0_of_mem : ∀ {xs : List Int} {x : Int}, x ∈ xs → x ≤ maxD0 xs
  | y :: ys, x, h => by
    rcases List.mem_cons.mp h with rfl | h2
    · exact le_foldl_max ys x
    · exact mem_le_foldl_max ys y x h2

theorem maxD0_snoc (l : List Int) (v : Int) (hv : 0 ≤ v) :
    maxD0 (l ++ [v]) = max (maxD0 l) v := by
  cases l with
  | nil => simp [maxD0, max_eq_right hv]
  | cons x xs =>
    show List.foldl max x (xs ++ [v]) = max (List.foldl max x xs) v
    rw [List.foldl_append]
    rfl

theorem sortIndicesIn_append (cat : String) (xs ys : List Link) :
    sortIndicesIn cat (xs ++ ys) = sortIndicesIn cat xs ++ sortIndicesIn cat ys := by
  unfold sortIndicesIn
  rw [List.filter_append, List.map_append]

theorem intRange1_succ (n : Nat) :
    intRange1 (n + 1) = intRange1 n ++ [(n : Int) + 1] := by
  unfold intRange1
  rw [List.range_succ, List.map_append]
  rfl

theorem maxD0_intRange1 : ∀ n : Nat, maxD0 (intRange1 n) = (n : Int) := by
  intro n
  induction n with
  | zero => rfl
  | succ n ih =>
    rw [intRange1_succ, maxD0_snoc _ _ (by omega), ih, max_eq_right (by omega)]
    omega

theorem track_clickN_links (link_id : Nat) :
    ∀ (n : Nat) (s : Store), (track_clickN link_id n s).links =
      s.links.map fun l =>
        if l.id = link_id then { l with usage_count := l.usage_count + n } else l
  | 0, s => by
    show s.links = _
    rw [List.map_congr_left (g := id) fun a _ => by split <;> rfl, List.map_id]
  | n + 1, s => by
    show (track_clickN link_id n (track_click link_id s)).links = _
    rw [track_clickN_links link_id n (track_click link_id s)]
    show (s.links.map _).map _ = _
    rw [List.map_map]
    refine List.map_congr_left fun a _ => ?_
    by_cases h : a.id = link_id
    · have hn : a.usage_count + 1 + n = a.usage_count + (n + 1) := by omega
      simp [Function.comp, h, Link.mk.injEq, hn]
    · simp [Function.comp, h]

theorem mem_applyReorderItem_preserve {links : List Link} {l : Link}
    (it : LinkReorderItem) (hne : l.id ≠ it.id) (hl : l ∈ links) :
    l ∈ applyReorderItem links it := by
  unfold applyReorderItem
  exact List.mem_map.mpr ⟨l, hl, if_neg hne⟩

theorem mem_applyReorderItem_sets {links : List Link} {l : Link}
    (it : LinkReorderItem) (hid : l.id = it.id) (hl : l ∈ links) :
    ({ l with category := it.category, sort_index := it.sort_index } : Link) ∈
      applyReorderItem links it := by
  unfold applyReorderItem
  exact List.mem_map.mpr ⟨l, hl, if_pos hid⟩

theorem mem_foldl_reorder_preserve :
    ∀ (items : List LinkReorderItem) (links : List Link) (l : Link),
      (∀ it ∈ items, l.id ≠ it.id) → l ∈ links →
        l ∈ items.foldl applyReorderItem links
  | [], _, _, _, hl => hl
  | it :: rest, _links, l, h, hl =>
    mem_foldl_reorder_preserve rest _ l
      (fun it2 h2 => h it2 (List.mem_cons_of_mem it h2))
      (mem_applyReorderItem_preserve it (h it (List.mem_cons_self it rest)) hl)

theorem mem_foldl_reorder_sets :
    ∀ (items : List LinkReorderItem) (links : List Link) (item : LinkReorderItem),
      item ∈ items → ((items.map fun i => i.id).Nodup) →
      ∀ l ∈ links, l.id = item.id →
        { l with category := item.category, sort_index := item.sort_index } ∈
          items.foldl applyReorderItem links
  | it :: rest, links, item, hmem, hnd, l, hl, hid => by
    have hnd2 := List.nodup_cons.mp hnd
    rcases List.mem_cons.mp hmem with rfl | hmem2
    · refine mem_foldl_reorder_preserve rest _ _ (fun it2 h2 hcontra => ?_)
        (mem_applyReorderItem_sets item hid hl)
      have h3 : item.id = it2.id := by
        rw [← hid]
        exact hcontra
      have h4 : item.id ∈ rest.map fun i => i.id := by
        rw [h3]
        exact List.mem_map_of_mem (fun i => i.id) h2
      exact hnd2.1 h4
    · have hne : l.id ≠ it.id := by
        intro hcontra
        have h3 : it.id = item.id := hcontra ▸ hid
        have h4 : it.id ∈ rest.map fun i => i.id := by
          rw [h3]
          exact List.mem_map_of_mem (fun i => i.id) hmem2
        exact hnd2.1 h4
      exact mem_foldl_reorder_sets rest _ item hmem2 hnd2.2 l
        (mem_applyReorderItem_preserve it hne hl) hid

theorem sortIndicesIn_create (p : LinkCreate) (now : String) (s : Store) :
    sortIndicesIn p.category ((create_link p now s).2.links) =
      sortIndicesIn p.category s.links ++
        [maxD0 (sortIndicesIn p.category s.links) + 1] := by
  show sortIndicesIn p.category (s.links ++ [_]) = _
  rw [sortIndicesIn_append]
  congr 1
  simp [sortIndicesIn]

theorem sortIndicesIn_createN (p : LinkCreate) (now : String) :
    ∀ (n k : Nat) (s : Store),
      sortIndicesIn p.category s.links = intRange1 k →
      sortIndicesIn p.category ((createN p now n s).links) = intRange1 (k + n)
  | 0, k, s, h => by
    show sortIndicesIn p.category s.links = intRange1 (k + 0)
    rw [h]
    rfl
  | n + 1, k, s, h => by
    show sortIndicesIn p.category ((createN p now n (create_link p now s).2).links) = _
    have hstep : sortIndicesIn p.category ((create_link p now s).2.links) =
        intRange1 (k + 1) := by
      rw [sortIndicesIn_create, h, maxD0_intRange1, intRange1_succ]
    rw [sortIndicesIn_createN p now n (k + 1) _ hstep]
    congr 1
    omega

/-! ### Claim theorems -/

/-- C1 counterexample: the links list is NOT ordered by the category's
position in the resolved display order.  With `category_order = ["B","A"]`
and one link in each of A and B, the claimed order would put the B link
first, but `GET /api/links` sorts `ORDER BY category ASC` and returns the
A link first. -/
theorem get_links_claimed_order_cex :
    ¬ (get_links none none none storeC1).Pairwise (claimedLinkLeP storeC1) := by
  decide

/-- C1 (amended): the links list is ordered by category name ascending
(alphabetically, ignoring the stored category_order preference), then
sort_index ascending within each category, then created_at descending as
a final tiebreak; and it is a permutation of the visible filtered rows. -/
theorem get_links_sorted_alphabetical (cf : Option String) (ff : Option Bool)
    (u : Option String) (s : Store) :
    (get_links cf ff u s).Pairwise linkLeP ∧
      (get_links cf ff u s).Perm (s.links.filter fun l =>
        visibleTo u s.hidden_categories l && matchesFilters cf ff l) :=
  ⟨List.sorted_insertionSort linkLeP _, List.perm_insertionSort linkLeP _⟩

/-- C2: for any store and any category in the hidden set, an
unauthenticated links list call returns no link of that category, and an
authenticated call returns every link matching the filters. -/
theorem hidden_category_filtering (s : Store) (cf : Option String) (ff : Option Bool)
    (cat : String) (hcat : cat ∈ s.hidden_categories) :
    (∀ l ∈ get_links cf ff none s, l.category ≠ cat) ∧
    (∀ l ∈ s.links, matchesFilters cf ff l = true →
      l ∈ get_links cf ff (some "admin") s) := by
  constructor
  · intro l hl heq
    obtain ⟨-, hvis, -⟩ := mem_get_links_iff.mp hl
    unfold visibleTo at hvis
    have hne : s.hidden_categories.isEmpty = false := by
      cases hh : s.hidden_categories with
      | nil => rw [hh] at hcat; exact absurd hcat (List.not_mem_nil cat)
      | cons a as => rfl
    rw [hne] at hvis
    simp only [Option.isNone_none, Bool.not_false, Bool.and_true, if_true,
      ite_true, Bool.not_eq_true] at hvis
    rw [heq] at hvis
    have hmem : s.hidden_categories.contains cat = true := List.elem_iff.mpr hcat
    rw [hmem] at hvis
    cases hvis
  · intro l hl hm
    exact mem_get_links_iff.mpr ⟨hl, rfl, hm⟩

theorem hidden_category_filtering_witness :
    (∀ l ∈ get_links none none none storeHidden, l.category ≠ "H") ∧
    (∀ l ∈ storeHidden.links, matchesFilters none none l = true →
      l ∈ get_links none none (some "admin") storeHidden) :=
  hidden_category_filtering storeHidden none none "H" (by decide)

/-- C3 counterexample: `GET /api/categories` does NOT hide hidden
categories from unauthenticated callers: with "H" hidden, the endpoint
still returns it. -/
theorem get_categories_reveals_hidden_cex :
    "H" ∈ storeHidden.hidden_categories ∧ "H" ∈ get_categories storeHidden := by
  decide

/-- C3 (amended): `GET /api/categories` resolves no caller identity and
applies no hidden-category filtering: every category present among the
stored links appears in the result for every caller, hidden or not. -/
theorem get_categories_ignores_identity (s : Store) (c : String)
    (h : c ∈ s.links.map fun l => l.category) : c ∈ get_categories s := by
  unfold get_categories
  have hc : c ∈ distinctCategories s := List.mem_dedup.mpr h
  by_cases h2 : c ∈ orderedCategories s
  · exact List.mem_append_left _ h2
  · refine List.mem_append_right _ ?_
    unfold remainingCategories
    rw [List.mem_insertionSort, List.mem_filter]
    refine ⟨hc, ?_⟩
    cases hcc : (orderedCategories s).contains c with
    | false => rfl
    | true => exact absurd (List.elem_iff.mp hcc) h2

theorem get_categories_ignores_identity_witness :
    "H" ∈ get_categories storeHidden :=
  get_categories_ignores_identity storeHidden "H" (by decide)

/-- C4: a created link's sort_index is the maximum existing sort_index
in its category (0 when absent) plus one, and N successive creations
into an initially empty category produce sort_index values 1..N. -/
theorem create_appends_sort_index (s : Store) (p : LinkCreate) (now : String) :
    (create_link p now s).1.sort_index = maxD0 (sortIndicesIn p.category s.links) + 1 ∧
    (∀ N : Nat, 1 ≤ N → sortIndicesIn p.category s.links = [] →
      sortIndicesIn p.category ((createN p now N s).links) = intRange1 N) := by
  refine ⟨rfl, fun N h1 hempty => ?_⟩
  have h2 := sortIndicesIn_createN p now N 0 s (by rw [hempty]; rfl)
  rw [Nat.zero_add] at h2
  exact h2

/-- C5: an update whose payload sets a category different from the
link's current one recomputes sort_index as append-to-end of the
destination category (strictly above every existing index there, and 1
when the destination is empty); an update whose payload repeats the
current category leaves sort_index unchanged.  (The `LinkUpdate` payload
has no sort_index field, so no explicit index can be supplied.) -/
theorem update_moves_append_to_destination (s : Store) (link_id : Nat)
    (u : LinkUpdate) (c : String) (l0 : Link) (hcat : u.category = some c)
    (hfind : s.links.find? (fun l => l.id = link_id) = some l0) :
    (l0.category ≠ c →
      ∃ l2 s2, update_link link_id u s = .ok (l2, s2) ∧
        l2.sort_index = maxD0 (sortIndicesIn c s.links) + 1 ∧
        (∀ x ∈ sortIndicesIn c s.links, x < l2.sort_index) ∧
        (sortIndicesIn c s.links = [] → l2.sort_index = 1)) ∧
    (l0.category = c →
      ∃ l2 s2, update_link link_id u s = .ok (l2, s2) ∧
        l2.sort_index = l0.sort_index) := by
  have hupd : hasUpdates u = true := by
    unfold hasUpdates
    rw [hcat]
    simp
  constructor
  · intro hne
    have heq : update_link link_id u s =
        .ok (applyUpdate u (some (maxD0 (sortIndicesIn c s.links) + 1)) l0,
          { s with links := s.links.map fun l =>
            if l.id = link_id then
              applyUpdate u (some (maxD0 (sortIndicesIn c s.links) + 1)) l
            else l }) := by
      unfold update_link
      rw [hfind]
      simp only [hupd, if_true, ite_true, hcat]
      rw [if_pos (Ne.symm hne)]
    refine ⟨_, _, heq, rfl, fun x hx => ?_, fun hemp => ?_⟩
    · show x < (some (maxD0 (sortIndicesIn c s.links) + 1)).getD l0.sort_index
      have h3 := le_maxD0_of_mem hx
      simp only [Option.getD_some]
      omega
    · show (some (maxD0 (sortIndicesIn c s.links) + 1)).getD l0.sort_index = 1
      rw [hemp]
      rfl
  · intro hsame
    have heq : update_link link_id u s =
        .ok (applyUpdate u none l0,
          { s with links := s.links.map fun l =>
            if l.id = link_id then applyUpdate u none l else l }) := by
      unfold update_link
      rw [hfind]
      simp only [hupd, if_true, ite_true, hcat]
      rw [if_neg (fun h2 => h2 hsame.symm)]
    exact ⟨_, _, heq, rfl⟩

theorem update_moves_append_to_destination_witness :
    ∃ l2 s2, update_link 1 updMoveToB storeC5 = .ok (l2, s2) ∧
      l2.sort_index = maxD0 (sortIndicesIn "B" storeC5.links) + 1 ∧
      (∀ x ∈ sortIndicesIn "B" storeC5.links, x < l2.sort_index) ∧
      (sortIndicesIn "B" storeC5.links = [] → l2.sort_index = 1) :=
  (update_moves_append_to_destination storeC5 1 updMoveToB "B" linkMoveSrc rfl
    (by decide)).1 (by decide)

/-- C6: the reorder endpoint rejects an empty batch with
InvalidArgument; otherwise it overwrites each listed link's category and
sort_index with exactly the given values, with no validation; and after
`reorder([(5,"A",1), (7,"A",2)])` a list call filtered to category "A"
returns id 5 before id 7. -/
theorem reorder_bulk_overwrite :
    (∀ s, reorder_links [] s = .error .invalidArgument) ∧
    (∀ (items : List LinkReorderItem) (s : Store), items ≠ [] →
      ((items.map fun i => i.id).Nodup) →
      ∀ item ∈ items, ∀ l ∈ s.links, l.id = item.id →
        ∃ s2, reorder_links items s = .ok s2 ∧
          ({ l with category := item.category, sort_index := item.sort_index } :
            Link) ∈ s2.links) ∧
    (∃ s2, reorder_links itemsC6 storeC6 = .ok s2 ∧
      ((get_links (some "A") none (some "admin") s2).map fun l => l.id) = [5, 7]) := by
  refine ⟨fun s => rfl, fun items s hne hnd item hitem l hl hid => ?_, ?_⟩
  · have hif : items.isEmpty = false := by
      cases items with
      | nil => exact absurd rfl hne
      | cons a as => rfl
    refine ⟨{ s with links := items.foldl applyReorderItem s.links }, ?_,
      mem_foldl_reorder_sets items s.links item hitem hnd l hl hid⟩
    unfold reorder_links
    rw [hif]
    rfl
  · exact ⟨_, rfl, by decide⟩

theorem reorder_bulk_overwrite_witness :
    reorder_links [] storeC6 = .error .invalidArgument ∧
    ∃ s2, reorder_links itemsC6 storeC6 = .ok s2 ∧
      ({ link5 with category := "A", sort_index := 1 } : Link) ∈ s2.links :=
  ⟨reorder_bulk_overwrite.1 storeC6,
   reorder_bulk_overwrite.2.1 itemsC6 storeC6 (by decide) (by decide)
     { id := 5, category := "A", sort_index := 1 } (by decide) link5 (by decide) rfl⟩

theorem create_appends_sort_index_witness :
    (create_link payloadC "t" storeEmpty).1.sort_index =
      maxD0 (sortIndicesIn payloadC.category storeEmpty.links) + 1 ∧
    sortIndicesIn payloadC.category ((createN payloadC "t" 3 storeEmpty).links) =
      intRange1 3 :=
  ⟨(create_appends_sort_index storeEmpty payloadC "t").1,
   (create_appends_sort_index storeEmpty payloadC "t").2 3 (by omega) (by decide)⟩

/-- C7: update fails with NotFound when no link has the id, and with
InvalidArgument when the payload sets zero recognized fields (which is
exactly the all-defaults payload); in either failure the links table is
unchanged. -/
theorem update_failure_cases (s : Store) (link_id : Nat) (u : LinkUpdate) :
    (s.links.find? (fun l => l.id = link_id) = none →
      update_link link_id u s = .error .notFound ∧
      (update_link_store link_id u s).links = s.links) ∧
    ((∃ l0, s.links.find? (fun l => l.id = link_id) = some l0) →
      hasUpdates u = false →
      update_link link_id u s = .error .invalidArgument ∧
      (update_link_store link_id u s).links = s.links) ∧
    (hasUpdates u = false ↔ u = {}) := by
  refine ⟨fun hf => ?_, fun hex hu => ?_, ?_, ?_⟩
  · have h1 : update_link link_id u s = .error .notFound := by
      unfold update_link
      rw [hf]
    refine ⟨h1, ?_⟩
    unfold update_link_store
    rw [h1]
  · obtain ⟨l0, hf⟩ := hex
    have h1 : update_link link_id u s = .error .invalidArgument := by
      unfold update_link
      rw [hf]
      simp only [hu, if_false, ite_false, Bool.false_eq_true]
    refine ⟨h1, ?_⟩
    unfold update_link_store
    rw [h1]
  · intro h
    rcases u with ⟨t, r, i, iu, d, c, f⟩
    cases t <;> cases r <;> cases i <;> cases iu <;> cases d <;> cases c <;>
      cases f <;> simp_all [hasUpdates]
  · rintro rfl
    rfl

theorem update_failure_cases_witness :
    (update_link 99 {} storeC6 = .error .notFound ∧
      (update_link_store 99 {} storeC6).links = storeC6.links) ∧
    (update_link 5 {} storeC6 = .error .invalidArgument ∧
      (update_link_store 5 {} storeC6).links = storeC6.links) :=
  ⟨(update_failure_cases storeC6 99 {}).1 (by decide),
   (update_failure_cases storeC6 5 {}).2.1 ⟨link5, by decide⟩ rfl⟩

/-- C8 counterexample: with a category_order preference naming "B"
twice, `GET /api/categories` returns "B" twice, so its result is not the
spec-described sequence of distinct categories. -/
theorem listCategories_dup_order_cex :
    get_categories storeDupOrder ≠
      claimed_listCategories storeDupOrder.links storeDupOrder.category_order := by
  decide

/-- C8 (amended): provided the stored order preference has no duplicate
names, `GET /api/categories` returns the distinct categories present
among links, those named in the preference first in that relative order,
then the rest alphabetically; in particular links in A, B, C with order
["B","A"] give ["B","A","C"]. -/
theorem listCategories_resolved_order (s : Store) (h : s.category_order.Nodup) :
    get_categories s = claimed_listCategories s.links s.category_order ∧
    get_categories storeC8 = ["B", "A", "C"] := by
  refine ⟨?_, by decide⟩
  unfold get_categories claimed_listCategories remainingCategories
    orderedCategories distinctCategories
  rw [List.dedup_eq_self.mpr h]
  congr 1
  refine congrArg (List.insertionSort stringLeP) (List.filter_congr fun c hc => ?_)
  refine congrArg (fun b => !b) ?_
  by_cases hcm : c ∈ s.category_order
  · have hl : (s.category_order.filter fun c2 =>
        ((s.links.map fun l => l.category).dedup).contains c2).contains c = true :=
      List.elem_iff.mpr (List.mem_filter.mpr ⟨hcm, List.elem_iff.mpr hc⟩)
    have hr : s.category_order.contains c = true := List.elem_iff.mpr hcm
    rw [hl, hr]
  · have hl : (s.category_order.filter fun c2 =>
        ((s.links.map fun l => l.category).dedup).contains c2).contains c = false := by
      cases h2 : (s.category_order.filter fun c2 =>
          ((s.links.map fun l => l.category).dedup).contains c2).contains c with
      | false => rfl
      | true => exact absurd (List.mem_filter.mp (List.elem_iff.mp h2)).1 hcm
    have hr : s.category_order.contains c = false := by
      cases h2 : s.category_order.contains c with
      | false => rfl
      | true => exact absurd (List.elem_iff.mp h2) hcm
    rw [hl, hr]

theorem listCategories_resolved_order_witness :
    get_categories storeC8 =
      claimed_listCategories storeC8.links storeC8.category_order ∧
    get_categories storeC8 = ["B", "A", "C"] :=
  listCategories_resolved_order storeC8 (by decide)

theorem map_click_noop (link_id : Nat) :
    ∀ ls : List Link, (∀ l ∈ ls, l.id ≠ link_id) →
      (ls.map fun l =>
        if l.id = link_id then { l with usage_count := l.usage_count + 1 } else l) = ls
  | [], _ => rfl
  | a :: as, hh => by
    simp only [List.map_cons]
    rw [if_neg (hh a (List.mem_cons_self a as)),
      map_click_noop link_id as fun x hx => hh x (List.mem_cons_of_mem a hx)]

/-- C9: click tracking never fails: on an id with no link it leaves the
store unchanged, and n calls on any id add exactly n to the usage_count
of the links with that id and change nothing else. -/
theorem track_click_never_fails (s : Store) (link_id : Nat) :
    ((∀ l ∈ s.links, l.id ≠ link_id) → track_click link_id s = s) ∧
    (∀ n : Nat, (track_clickN link_id n s).links =
      s.links.map fun l =>
        if l.id = link_id then { l with usage_count := l.usage_count + n } else l) := by
  constructor
  · intro h
    unfold track_click
    rw [map_click_noop link_id s.links h]
  · exact fun n => track_clickN_links link_id n s

theorem track_click_never_fails_witness :
    track_click 99 storeC6 = storeC6 ∧
    (track_clickN 5 2 storeC6).links =
      storeC6.links.map fun l =>
        if l.id = 5 then { l with usage_count := l.usage_count + 2 } else l :=
  ⟨(track_click_never_fails storeC6 99).1 (by decide),
   (track_click_never_fails storeC6 5).2 2⟩

/-- C10: a token issued for the admin verifies successfully before its
expiry (24 hours after issuance) and fails after the expiry has passed;
and every token asserting a non-admin identity is rejected by
verification. -/
theorem token_issue_verify (key : String) (t0 now : Nat) :
    (now < t0 + ACCESS_TOKEN_EXPIRE_HOURS * 3600 →
      verify_token (create_access_token (some "admin") key t0) key now = .ok "admin") ∧
    (t0 + ACCESS_TOKEN_EXPIRE_HOURS * 3600 < now →
      verify_token (create_access_token (some "admin") key t0) key now =
        .error "Invalid or expired token") ∧
    (∀ tok : Jwt, tok.claims.sub ≠ some "admin" →
      ∃ e, verify_token tok key now = .error e) := by
  refine ⟨fun h => ?_, fun h => ?_, fun tok h => ?_⟩
  · unfold verify_token jwt_decode create_access_token jwt_encode
    rw [if_pos ⟨rfl, le_of_lt h⟩]
    dsimp only
    rw [if_pos rfl]
  · unfold verify_token jwt_decode create_access_token jwt_encode
    rw [if_neg fun hc => absurd hc.2 (by simpa using h)]
  · unfold verify_token
    cases hd : jwt_decode tok key now with
    | none => exact ⟨_, rfl⟩
    | some claims =>
      have hc : claims = tok.claims := by
        unfold jwt_decode at hd
        split at hd
        · exact (Option.some.inj hd).symm
        · exact Option.noConfusion hd
      dsimp only
      rw [if_neg (by rw [hc]; exact h)]
      exact ⟨_, rfl⟩

theorem token_issue_verify_witness :
    verify_token (create_access_token (some "admin") "k" 0) "k" 100 = .ok "admin" ∧
    verify_token (create_access_token (some "admin") "k" 0) "k" 100000 =
      .error "Invalid or expired token" ∧
    ∃ e, verify_token forgedToken "k" 100 = .error e :=
  ⟨(token_issue_verify "k" 0 100).1 (by decide),
   (token_issue_verify "k" 0 100000).2.1 (by decide),
   (token_issue_verify "k" 0 100).2.2 forgedToken (by decide)⟩

end AestheticNav
